import Mathlib

/-!
Verification development for the Document-Retrieval-System repository.

The repository ingests PDF documents, splits them into header-scoped
sections and overlapping character windows with page provenance, stores
chunk+vector records in a vector store keyed by a content identity, and
formats top-K search results into a citation-tagged context string.

Shallow embedding conventions:
* `src/src/chunking/data_chunking.py` — the page-label loop of
  `doc_chunk_splits` and the record construction of `save_splits_jsonl`
  are translated directly.  The two langchain splitters
  (`MarkdownHeaderTextSplitter`, `RecursiveCharacterTextSplitter`) are
  external library code, so they are modelled from the spec (each such
  definition carries a `Modelled from the spec:` doc comment).
* `src/src/database/mongo_utils.py` — the document construction, keying
  and formatting logic is translated directly.  The MongoDB client
  (`bulk_write` with `ReplaceOne(upsert=True)`, `list_search_indexes`)
  is an external service, modelled from the spec's capability contract
  (write, upsert-by-key) as a list of records.
* Python's builtin `hash` on strings is a runtime primitive (a salted
  64-bit hash); it is taken as an explicit function parameter `h`.
* Embedding vectors are lists of floats in the source; floats are kept
  opaque as a type parameter `V`.
-/

namespace DocRetrieval

/-- A langchain `Document` as used by the repository: `page_content`
plus the two metadata keys the code reads and writes
(`"Header 1"` from the header splitter, `"Page"` from the page loop),
and the optional `id` attribute read by `save_splits_jsonl`. -/
structure Doc where
  text : String
  header : Option String
  page : Option String
  docId : Option String
deriving DecidableEq, Repr

/-! ### Python regex model for `re.search(r'#\s*Page\s*(\d+)', text)` -/

/-- The ASCII whitespace characters matched by Python's `\s`
(`' '`, `'\t'`, `'\n'`, `'\r'`, `'\x0b'`, `'\x0c'`). -/
def isPySpace (c : Char) : Bool :=
  c = ' ' || c = '\t' || c = '\n' || c = '\r' || c = '\x0b' || c = '\x0c'

/-- Try to match the pattern `#\s*Page\s*(\d+)` at the head of the
character list, returning the captured digit group.  `\s*` is a greedy
run of whitespace (safe, since neither `'P'` nor a digit is whitespace)
and `(\d+)` greedily captures a maximal nonempty digit run. -/
def matchPageAt (l : List Char) : Option String :=
  match l with
  | '#' :: r =>
    match r.dropWhile isPySpace with
    | 'P' :: 'a' :: 'g' :: 'e' :: r2 =>
      let ds := (r2.dropWhile isPySpace).takeWhile Char.isDigit
      if ds.isEmpty then none else some (String.mk ds)
    | _ => none
  | _ => none

/-- `re.search`: scan positions left to right and return the captured
group of the leftmost match of `#\s*Page\s*(\d+)`, if any. -/
def searchPage : List Char → Option String
  | [] => none
  | c :: t =>
    match matchPageAt (c :: t) with
    | some d => some d
    | none => searchPage t

/-- All matches of the page-marker pattern together with their start
positions in the text (used to state the spec's forward-fill rule over
the original document). -/
def pageMarkersFrom : Nat → List Char → List (Nat × String)
  | _, [] => []
  | i, c :: t =>
    match matchPageAt (c :: t) with
    | some d => (i, d) :: pageMarkersFrom (i + 1) t
    | none => pageMarkersFrom (i + 1) t

/-- The spec's page label for a chunk starting at offset `off` of the
original document `doc`: the label of the last page marker whose start
position is at or before `off`, or `none` when no marker has yet
appeared.  This definition follows the claim's words and is compared
against the code's behaviour. -/
def lastMarkerAtOrBefore (doc : String) (off : Nat) : Option String :=
  (((pageMarkersFrom 0 doc.data).filter (fun p => p.1 ≤ off)).getLast?).map
    (fun p => "Page " ++ p.2)

/-! ### The page-label loop of `doc_chunk_splits` (source lines 54-67) -/

/-- The label the loop derives from a section that contains a page
marker: `f"Page {match.group(1)}"` for the leftmost match. -/
def firstMarkerLabel (d : Doc) : Option String :=
  (searchPage d.text.data).map (fun n => "Page " ++ n)

/-- The page-metadata loop of `doc_chunk_splits`: walk the header
splits in order carrying `page_name`; a section with a marker sets
`page_name` and receives it, a section without one inherits the
current `page_name` (possibly `None`). -/
def assignPages (cur : Option String) : List Doc → List Doc
  | [] => []
  | d :: ds =>
    match searchPage d.text.data with
    | some n =>
      { d with page := some ("Page " ++ n) } ::
        assignPages (some ("Page " ++ n)) ds
    | none => { d with page := cur } :: assignPages cur ds

/-- The spec's forward-fill combinator over per-element labels: an
element with its own label takes it and updates the carried value, an
element without one inherits the carried value. -/
def forwardFill (cur : Option String) : List (Option String) → List (Option String)
  | [] => []
  | o :: os =>
    match o with
    | some x => some x :: forwardFill (some x) os
    | none => cur :: forwardFill cur os

/-! ### Windowed character splitting -/

/-- Modelled from the spec: §4.2 Step 2 — "for each Section, split
`raw_text` into consecutive windows of at most `max_size` characters,
each window overlapping the previous by `overlap` characters".  The
actual splitter (`RecursiveCharacterTextSplitter` from langchain) is
external library code not in the repository; this model produces hard
character windows starting every `stride = max_size - overlap`
characters, each paired with its start offset.  `fuel` bounds the
recursion (`text length + 1` suffices when `stride ≥ 1`). -/
def windowsAux (M stride : Nat) (s : List Char) : Nat → Nat → List (Nat × List Char)
  | _, 0 => []
  | start, fuel + 1 =>
    let w := (s.drop start).take M
    if start + M < s.length then
      (start, w) :: windowsAux M stride s (start + stride) fuel
    else
      [(start, w)]

/-- Modelled from the spec: the windows of one Section's text, each
with its start offset inside the Section.  Empty text yields no
windows. -/
def windows (M O : Nat) (s : List Char) : List (Nat × List Char) :=
  if s.length = 0 then [] else windowsAux M (M - O) s 0 (s.length + 1)

/-- The chunks produced from a list of already page-labelled sections,
each paired with its start offset in the concatenation of the section
texts (the original document).  Every window of a section becomes a
Doc inheriting that section's metadata. -/
def chunksWithStartsAux (M O : Nat) : Nat → List Doc → List (Nat × Doc)
  | _, [] => []
  | base, d :: ds =>
    ((windows M O d.text.data).map
      (fun w => (base + w.1, { d with text := String.mk w.2 }))) ++
      chunksWithStartsAux M O (base + d.text.data.length) ds

/-- The full chunker pipeline applied to header splits: page-label
loop, then windowing, with offsets into the original document. -/
def chunksWithStarts (M O : Nat) (docs : List Doc) : List (Nat × Doc) :=
  chunksWithStartsAux M O 0 (assignPages none docs)

/-- `doc_chunk_splits(header_splits, chunk_size, chunk_overlap)`:
the page-label loop (translated from source lines 54-67) followed by
character windowing.  Modelled from the spec: §4.2 — "if
`max_size ≤ 0` or `overlap ≥ max_size`, this is a configuration error
reported to the caller, not silently clamped"; the parameter
validation lives in the external langchain splitter, so the guard is
taken from the spec's contract (sizes are naturals here, so
`max_size ≤ 0` is `M = 0`). -/
def doc_chunk_splits (M O : Nat) (docs : List Doc) : Except String (List Doc) :=
  if M = 0 ∨ M ≤ O then .error "invalid chunk configuration"
  else .ok ((chunksWithStartsAux M O 0 (assignPages none docs)).map (fun p => p.2))

/-! ### Header-based splitting (`doc_header_split`, source lines 26-49) -/

/-- Does the character list begin a level-2 markdown header line
(the configured marker `##` of `headers_to_split_on`, followed by a
space)? -/
def startsHeader : List Char → Bool
  | '#' :: '#' :: ' ' :: _ => true
  | _ => false

/-- Modelled from the spec: §4.1 — cut the document's character
stream immediately before every header line, keeping every character.
`cur` is the current section accumulated in reverse; `atStart` is true
when the next character begins a line.  The external
`MarkdownHeaderTextSplitter` is not repository code; this model
realises the spec's lossless-partition contract. -/
def sectionsAux (cur : List Char) (atStart : Bool) : List Char → List (List Char)
  | [] => [cur.reverse]
  | c :: rest =>
    if atStart && startsHeader (c :: rest) && !cur.isEmpty then
      cur.reverse :: sectionsAux [c] (c = '\n') rest
    else
      sectionsAux (c :: cur) (c = '\n') rest

/-- The header title of a section: the text of its leading `## ` line,
or `none` for pre-header content. -/
def headerTitleOf (cs : List Char) : Option String :=
  match cs with
  | '#' :: '#' :: ' ' :: rest =>
    some (String.mk ((rest.dropWhile (fun c => c = ' ')).takeWhile (fun c => c ≠ '\n')))
  | _ => none

/-- Modelled from the spec: `doc_header_split` — one Section per
header occurrence, each Section's text including its own header line,
leading pre-header content forming a Section with absent title, an
empty document yielding the empty sequence. -/
def doc_header_split (s : String) : List Doc :=
  if s.data.isEmpty then []
  else (sectionsAux [] true s.data).map
    (fun cs => { text := String.mk cs, header := headerTitleOf cs,
                 page := none, docId := none })

/-! ### Content identity and the upsert pipeline
(`upsert_data`, source lines 75-105) -/

/-- The chunk identity computed by `upsert_data` (source line 89):
`f"{pdf_path.stem}_{hash(chunk.page_content)}"`.  `h` stands for the
per-process builtin `hash` on strings, a runtime primitive whose
values are 64-bit signed integers. -/
def chunkId (h : String → Int) (stem text : String) : String :=
  stem ++ "_" ++ toString (h text)

/-- An Indexed Record as built by `upsert_data`: text, embedding and
the metadata mapping with keys `source`, `page`, `header`, `chunk_id`.
`V` keeps the float vectors opaque. -/
structure StoredDoc (V : Type) where
  text : String
  embedding : V
  source : String
  page : Option String
  header : Option String
  chunk_id : String
deriving DecidableEq, Repr

variable {V : Type}

/-- The record `upsert_data` builds for one chunk/vector pair
(source lines 82-91): `source` is the file name, `page` and `header`
are the chunk's metadata values (defaulting to `None`), and
`chunk_id` is the content identity. -/
def buildDoc (h : String → Int) (stem fname : String) (c : Doc) (v : V) : StoredDoc V :=
  { text := c.text, embedding := v, source := fname,
    page := c.page, header := c.header,
    chunk_id := chunkId h stem c.text }

/-- The batch of records built by the `for chunk, vector in
zip(chunks, vectors)` loop: the two sequences are zipped, truncating
to the shorter one. -/
def buildDocs (h : String → Int) (stem fname : String)
    (chunks : List Doc) (vectors : List V) : List (StoredDoc V) :=
  (chunks.zip vectors).map (fun p => buildDoc h stem fname p.1 p.2)

/-- Modelled from the spec: one `ReplaceOne(filter, doc, upsert=True)`
against the store capability (§4.4 upsert-by-key): replace the first
record whose `chunk_id` equals the key if one exists (an update),
otherwise insert the record.  Returns the new store and whether an
insert happened.  The MongoDB client is external to the repository. -/
def replaceOne (k : String) (d : StoredDoc V) :
    List (StoredDoc V) → List (StoredDoc V) × Bool
  | [] => ([d], true)
  | x :: xs =>
    if x.chunk_id = k then (d :: xs, false)
    else
      let r := replaceOne k d xs
      (x :: r.1, r.2)

/-- Modelled from the spec: `coll.bulk_write` over a list of
`ReplaceOne` upserts, performed in order; returns the final store,
the number of inserts (`upserted_count`) and the number of updates
(`modified_count`; per the spec's contract a replace-if-exists counts
as an update). -/
def bulkWrite (store : List (StoredDoc V)) :
    List (StoredDoc V) → List (StoredDoc V) × Nat × Nat
  | [] => (store, 0, 0)
  | d :: ds =>
    let s1 := replaceOne d.chunk_id d store
    let r := bulkWrite s1.1 ds
    (r.1, (if s1.2 then r.2.1 + 1 else r.2.1),
          (if s1.2 then r.2.2 else r.2.2 + 1))

/-- `upsert_data(chunks, vectors, pdf_path)` against a store state:
build the records by zipping, then bulk-upsert each one keyed by its
`chunk_id`.  An empty batch skips the bulk write (a no-op).  The
function raises nothing itself; the result carries the final store,
`upserted_count` and `modified_count` (the counts the source logs). -/
def upsert_data (h : String → Int) (chunks : List Doc) (vectors : List V)
    (stem fname : String) (store : List (StoredDoc V)) :
    List (StoredDoc V) × Nat × Nat :=
  bulkWrite store (buildDocs h stem fname chunks vectors)

/-- Number of records in the store carrying a given content
identity. -/
def countKey (k : String) (s : List (StoredDoc V)) : Nat :=
  (s.filter (fun d => d.chunk_id = k)).length

/-! ### Vector index creation (`create_vector_index`, source lines 35-72) -/

/-- The search-index definition built by `create_vector_index`: a
vector field over `embedding` with 768 dimensions and cosine
similarity, plus three filterable metadata paths. -/
structure IndexDef where
  vectorPath : String
  numDimensions : Nat
  similarity : String
  filterPaths : List String
deriving DecidableEq, Repr

/-- The concrete definition from source lines 37-65. -/
def vectorIndexDef : IndexDef :=
  { vectorPath := "embedding", numDimensions := 768,
    similarity := "cosine",
    filterPaths := ["metadata.Header 1", "metadata.Page", "metadata.source"] }

/-- A named search index as listed by `coll.list_search_indexes()`. -/
structure NamedIndex where
  name : String
  defn : IndexDef
deriving DecidableEq, Repr

/-- `create_vector_index()` against the collection's current list of
search indexes: if an index named `indexName` already exists — the
check is by name only, its definition is never inspected — the
function only logs and returns; otherwise it creates the fixed
vector-search index.  Returns the new index list and whether an index
was created.  The function has no failure path of its own (it raises
nothing); driver/network failures are outside the repository. -/
def create_vector_index (indexName : String) (existing : List NamedIndex) :
    List NamedIndex × Bool :=
  if indexName ∈ existing.map (fun i => i.name) then (existing, false)
  else (existing ++ [{ name := indexName, defn := vectorIndexDef }], true)

/-! ### Search-result formatting
(`search_result_for_llm`, source lines 107-143) -/

/-- One record of the `$project` stage consumed by the formatting
loop: `text` plus the metadata written by `upsert_data` (which always
writes the `source`, `page` and `header` keys, the latter two possibly
`None`; the `.get(..., "Unknown")` defaults are therefore unreachable
for records this system writes). -/
structure SearchResult where
  text : String
  source : String
  header : Option String
  page : Option String
deriving DecidableEq, Repr

/-- Python's `str.strip()` on ASCII text: drop leading and trailing
whitespace. -/
def pyStrip (s : String) : String :=
  String.mk (((s.data.dropWhile isPySpace).reverse.dropWhile isPySpace).reverse)

/-- How an `Option`-valued metadata field appears inside the f-string:
the value itself, or the string rendering of Python `None` when the
label is absent. -/
def pyShowOpt : Option String → String
  | some s => s
  | none => "None"

/-- The f-string of source line 141:
`f"[{i}] {source} | {header} | {page}:{text} "` with `text` stripped
(line 138). -/
def formatLine (i : Nat) (r : SearchResult) : String :=
  "[" ++ toString i ++ "] " ++ r.source ++ " | " ++ pyShowOpt r.header ++
    " | " ++ pyShowOpt r.page ++ ":" ++ pyStrip r.text ++ " "

/-- The `for i, result in enumerate(results, 1)` loop building the
`context` list. -/
def contextLines : Nat → List SearchResult → List String
  | _, [] => []
  | i, r :: rs => formatLine i r :: contextLines (i + 1) rs

/-- `search_result_for_llm` restricted to its formatting contract:
given the search results in ranked order, produce the double-newline
join of the citation lines (source line 143).  The vector-search
pipeline itself runs in MongoDB, outside the repository. -/
def search_result_for_llm (rs : List SearchResult) : String :=
  String.intercalate "\n\n" (contextLines 1 rs)

/-- Follows the claim's words: the citation-tagged line for rank
`rank` (1-based) contains the rank index, the source filename, the
header title or a placeholder when absent, the page label or a
placeholder when absent, and the chunk text. -/
def citationLine (rank : Nat) (r : SearchResult) : String :=
  "[" ++ toString rank ++ "] " ++ r.source ++ " | " ++
    r.header.getD "None" ++ " | " ++ r.page.getD "None" ++ ":" ++
    pyStrip r.text ++ " "

/-- Follows the claim's words: the ordered concatenation of the
citation lines with 1-based ranks, separated by double newlines. -/
def claimContext (rs : List SearchResult) : String :=
  String.intercalate "\n\n" (rs.enum.map (fun p => citationLine (p.1 + 1) p.2))

/-! ### JSONL persistence (`save_splits_jsonl`, source lines 80-98) -/

/-- One serialized line of the JSONL file: the chunk's text
(`page_content`), its metadata mapping, and the `id` field when
present. -/
structure JsonlRecord where
  text : String
  header : Option String
  page : Option String
  recId : Option String
deriving DecidableEq, Repr

/-- Python truthiness of the optional `id` attribute:
`getattr(doc, "id", None)` is falsy when missing, `None`, or the
empty string. -/
def pyTruthy : Option String → Bool
  | none => false
  | some s => s ≠ ""

/-- The record written for one document (source lines 89-94): text
and metadata always, `id` only when truthy. -/
def recordOfDoc (d : Doc) : JsonlRecord :=
  { text := d.text, header := d.header, page := d.page,
    recId := if pyTruthy d.docId then d.docId else none }

/-- `save_splits_jsonl(documents, filename, folder_path)` as a file
transition: the destination is opened with mode `"w"`, so the file
content after the call is exactly one record per document — whatever
`prev` content the file held is discarded.  The function returns
`save_path = folder_path / filename` (not a count). -/
def save_splits_jsonl (documents : List Doc) (filename folder : String)
    (_prev : List JsonlRecord) : List JsonlRecord × String :=
  (documents.map recordOfDoc, folder ++ "/" ++ filename)

/-! ### Claim-side decidable checkers and fixtures -/

/-- Follows the claim's words: every chunk window's text has length at
most `max_size`. -/
def chunkLenOk (M : Nat) (ws : List (Nat × List Char)) : Bool :=
  ws.all (fun w => w.2.length ≤ M)

/-- Follows the claim's words: every pair of consecutive chunk windows
overlaps by at most `O` characters, where the overlap of window `a`
with its successor `b` is the part of `a` extending past the start of
`b`, namely `(a.start + a.length) - b.start`. -/
def overlapsOk (O : Nat) : List (Nat × List Char) → Bool
  | [] => true
  | [_] => true
  | a :: b :: rest =>
    (decide (a.1 + a.2.length - b.1 ≤ O)) && overlapsOk O (b :: rest)

/-- An index definition that disagrees with the one the code would
create (a different vector dimension): a name collision with an
incompatible definition. -/
def incompatibleDef : IndexDef :=
  { vectorIndexDef with numDimensions := 512 }

/-! ## Theorems -/

theorem mk_append (a b : List Char) :
    String.mk a ++ String.mk b = String.mk (a ++ b) := rfl

theorem sectionsAux_flatten (l : List Char) : ∀ (cur : List Char) (b : Bool),
    (sectionsAux cur b l).flatten = cur.reverse ++ l := by
  induction l with
  | nil => intro cur b; simp [sectionsAux]
  | cons c rest ih =>
    intro cur b
    simp only [sectionsAux]
    split
    · rw [List.flatten_cons, ih]
      simp
    · rw [ih]
      simp

theorem join_map_mk (css : List (List Char)) :
    String.join (css.map String.mk) = String.mk css.flatten := by
  rw [String.join_eq, List.map_map]
  show String.mk ((List.map (fun cs => cs) css).flatten) = String.mk css.flatten
  rw [List.map_id']

/-- C4: for every input document text, concatenating the `raw_text`
of all Sections returned by the header splitter, in order,
reconstructs the original document text exactly — the sections are a
lossless ordered partition with no overlap or gap. -/
theorem header_split_lossless (s : String) :
    String.join ((doc_header_split s).map (fun d => d.text)) = s := by
  unfold doc_header_split
  by_cases h : s.data.isEmpty
  · rw [if_pos h]
    obtain ⟨d⟩ := s
    have h2 : d = [] := List.isEmpty_iff.mp h
    subst h2
    rfl
  · rw [if_neg h, List.map_map]
    show String.join (List.map String.mk (sectionsAux [] true s.data)) = s
    rw [join_map_mk, sectionsAux_flatten]
    obtain ⟨d⟩ := s
    rfl

theorem windowsAux_head (M stride : Nat) (s : List Char) (start f : Nat) :
    ∃ rest, windowsAux M stride s start (f + 1)
      = (start, (s.drop start).take M) :: rest := by
  rw [windowsAux]
  split
  · exact ⟨windowsAux M stride s (start + stride) f, rfl⟩
  · exact ⟨[], rfl⟩

theorem windowsAux_lenOk (M stride : Nat) (s : List Char) :
    ∀ (fuel start : Nat), chunkLenOk M (windowsAux M stride s start fuel) = true := by
  intro fuel
  induction fuel with
  | zero => intro start; rfl
  | succ f ih =>
    intro start
    have hlen : ((s.drop start).take M).length ≤ M := by
      rw [List.length_take]
      exact min_le_left _ _
    rw [windowsAux]
    split
    · simp only [chunkLenOk, List.all_cons]
      have h2 := ih (start + stride)
      simp only [chunkLenOk] at h2
      simp [hlen, h2]
    · simp [chunkLenOk, hlen]

theorem windowsAux_overlaps (M O : Nat) (s : List Char) (h : O < M) :
    ∀ (fuel start : Nat), overlapsOk O (windowsAux M (M - O) s start fuel) = true := by
  intro fuel
  induction fuel with
  | zero => intro start; rfl
  | succ f ih =>
    intro start
    rw [windowsAux]
    split
    · cases f with
      | zero => rw [windowsAux]; rfl
      | succ f2 =>
        obtain ⟨rest, hrep⟩ := windowsAux_head M (M - O) s (start + (M - O)) f2
        rw [hrep, overlapsOk, ← hrep]
        have hov : start + ((s.drop start).take M).length - (start + (M - O)) ≤ O := by
          have hlen : ((s.drop start).take M).length ≤ M := by
            rw [List.length_take]
            exact min_le_left _ _
          omega
        rw [Bool.and_eq_true]
        exact ⟨decide_eq_true hov, ih (start + (M - O))⟩
    · rfl

/-- C5: for every Section text and every configuration with
`overlap < max_size`, each window produced by the (spec-modelled)
windowed chunker has length at most `max_size`, and every pair of
consecutive windows from the same Section overlaps by at most
`overlap` characters. -/
theorem chunk_window_bounds (M O : Nat) (s : List Char) (h : O < M) :
    chunkLenOk M (windows M O s) = true ∧ overlapsOk O (windows M O s) = true := by
  unfold windows
  split
  · exact ⟨rfl, rfl⟩
  · exact ⟨windowsAux_lenOk M (M - O) s (s.length + 1) 0,
      windowsAux_overlaps M O s h (s.length + 1) 0⟩

/-- Witness for C5 at a concrete section text and configuration. -/
theorem chunk_window_bounds_witness :
    chunkLenOk 5 (windows 5 2 "abcdefgh".data) = true ∧
    overlapsOk 2 (windows 5 2 "abcdefgh".data) = true :=
  chunk_window_bounds 5 2 "abcdefgh".data (by decide)

/-- C6: calling the windowed chunker with `max_size ≤ 0` (here
`M = 0` over naturals) or `overlap ≥ max_size` is a configuration
error reported to the caller: the call returns an error and produces
no chunks, never silently clamping the parameters. -/
theorem chunk_config_error (M O : Nat) (docs : List Doc) (h : M = 0 ∨ M ≤ O) :
    doc_chunk_splits M O docs = .error "invalid chunk configuration" := by
  unfold doc_chunk_splits
  rw [if_pos h]

/-- Witness for C6 at a concrete invalid configuration
(`overlap = max_size`). -/
theorem chunk_config_error_witness :
    doc_chunk_splits 5 5 [{ text := "abc", header := none, page := none, docId := none }]
      = .error "invalid chunk configuration" :=
  chunk_config_error 5 5 _ (Or.inr (by decide))

theorem assignPages_pages (docs : List Doc) : ∀ cur : Option String,
    (assignPages cur docs).map (fun d => d.page)
      = forwardFill cur (docs.map firstMarkerLabel) := by
  induction docs with
  | nil => intro cur; rfl
  | cons d ds ih =>
    intro cur
    cases hs : searchPage d.text.data with
    | none => simp [assignPages, forwardFill, firstMarkerLabel, hs, ih]
    | some n => simp [assignPages, forwardFill, firstMarkerLabel, hs, ih]

theorem chunksWithStartsAux_pages (M O : Nat) (labeled : List Doc) :
    ∀ base : Nat,
    (chunksWithStartsAux M O base labeled).map (fun p => p.2.page)
      = labeled.flatMap
          (fun d => List.replicate (windows M O d.text.data).length d.page) := by
  induction labeled with
  | nil => intro base; rfl
  | cons d ds ih =>
    intro base
    simp only [chunksWithStartsAux, List.map_append, List.map_map,
      List.flatMap_cons, ih (base + d.text.data.length)]
    congr 1
    have : ((fun p : Nat × Doc => p.2.page) ∘
        (fun w : Nat × List Char => (base + w.1, { d with text := String.mk w.2 })))
        = Function.const (Nat × List Char) d.page := rfl
    rw [this, List.map_const]

/-- C3 counterexample: the claim fails on the code at a concrete
input.  For the single header split `"ab # Page 1 cd"` (so the
original document is that very text), the chunker produces a chunk
starting at offset 0 of the original document carrying page label
`"Page 1"`, although no page marker appears at or before offset 0 —
the spec's forward-fill rule (`lastMarkerAtOrBefore`) assigns this
chunk no label.  The code resolves page labels at section granularity
from the first marker found anywhere inside the section, not from the
last marker at or before each chunk's start offset. -/
theorem page_label_start_offset_refuted :
    (chunksWithStarts 100 10
        [{ text := "ab # Page 1 cd", header := none, page := none, docId := none }]).map
        (fun p => (p.1, p.2.page))
      = [(0, some "Page 1")] ∧
    lastMarkerAtOrBefore "ab # Page 1 cd" 0 = none := by
  constructor
  · rfl
  · rfl

/-- C3 amended: page provenance is resolved at section granularity —
the page labels the loop assigns to the sections are exactly the
forward-fill (inheriting the previous value) of each section's own
first page marker, with sections before any marker labelled `none`;
and every chunk produced from a section carries that section's
resolved label verbatim (each section contributes one copy of its
label per window, in order). -/
theorem page_label_section_granularity (M O : Nat) (docs res : List Doc)
    (h : doc_chunk_splits M O docs = .ok res) :
    (assignPages none docs).map (fun d => d.page)
        = forwardFill none (docs.map firstMarkerLabel) ∧
    res.map (fun d => d.page)
        = (assignPages none docs).flatMap
            (fun d => List.replicate (windows M O d.text.data).length d.page) := by
  refine ⟨assignPages_pages docs none, ?_⟩
  unfold doc_chunk_splits at h
  split at h
  · exact absurd h (by simp)
  · have hres : res = (chunksWithStartsAux M O 0 (assignPages none docs)).map
        (fun p => p.2) := by
      injection h with h2
      exact h2.symm
    rw [hres, List.map_map]
    exact chunksWithStartsAux_pages M O (assignPages none docs) 0

/-- Witness for the amended C3 at a concrete input: a two-section
document whose first section carries a marker and whose second
section inherits it. -/
theorem page_label_section_granularity_witness :
    (assignPages none
        [{ text := "# Page 7 ab", header := none, page := none, docId := none },
         { text := "cd", header := none, page := none, docId := none }]).map
        (fun d => d.page)
      = forwardFill none
          ([{ text := "# Page 7 ab", header := none, page := none, docId := none },
            { text := "cd", header := none, page := none, docId := none }].map
            firstMarkerLabel) ∧
    ([{ text := "# Page 7 ab", header := none, page := some "Page 7", docId := none },
      { text := "cd", header := none, page := some "Page 7", docId := none }] : List Doc).map
        (fun d => d.page)
      = (assignPages none
          [{ text := "# Page 7 ab", header := none, page := none, docId := none },
           { text := "cd", header := none, page := none, docId := none }]).flatMap
          (fun d => List.replicate (windows 100 0 d.text.data).length d.page) := by
  refine page_label_section_granularity 100 0 _ _ ?_
  rfl

/-- C1 counterexample: the injectivity half of the claim is false for
the code, whichever per-process hash the runtime uses.  CPython's
builtin `hash` on strings returns a 64-bit signed value (`Py_hash_t`),
so it is some function into the integer interval
`[-2^63, 2^63)`; since there are infinitely many strings and only
finitely many 64-bit values, every such function has two distinct
texts with equal hash, and `upsert_data` then computes the same
`chunk_id` for two chunks from the same source whose texts differ.
Hence no 64-bit-valued hash function can make the claim as stated
true. -/
theorem chunk_identity_not_injective :
    ¬ ∃ h : String → Int,
        (∀ s, -(2 : Int) ^ 63 ≤ h s ∧ h s < 2 ^ 63) ∧
        (∀ t1 t2 : String, t1 ≠ t2 →
          chunkId h "doc" t1 ≠ chunkId h "doc" t2) := by
  rintro ⟨h, hb, hinj⟩
  haveI : Finite (Set.Icc (-(2 : Int) ^ 63) ((2 : Int) ^ 63)) :=
    (Set.finite_Icc _ _).to_subtype
  obtain ⟨t1, t2, hne, heq⟩ :=
    Finite.exists_ne_map_eq_of_infinite
      (fun s : String =>
        (⟨h s, Set.mem_Icc.mpr ⟨(hb s).1, le_of_lt (hb s).2⟩⟩ :
          Set.Icc (-(2 : Int) ^ 63) ((2 : Int) ^ 63)))
  have hh : h t1 = h t2 := congrArg Subtype.val heq
  exact hinj t1 t2 hne (by simp [chunkId, hh])

/-- C1 amended: within a single run — that is, for the fixed builtin
hash function `h` of the process — the chunk identity computed by
`upsert_data` is a deterministic function of the source document stem
and the chunk text: two chunks with the same stem and identical text
always receive the same `chunk_id`, so re-ingesting an unchanged
chunk in that run resolves to the same key.  Distinct texts, however,
need not receive distinct keys (the hash has a finite 64-bit
codomain, see the counterexample), and keys need not agree across
runs, because CPython salts string hashes per process. -/
theorem chunk_identity_same_text (h : String → Int) (stem fname : String)
    (c c' : Doc) (v v' : V) (hc : c.text = c'.text) :
    (buildDoc h stem fname c v).chunk_id = (buildDoc h stem fname c' v').chunk_id ∧
    chunkId h stem c.text = chunkId h stem c'.text := by
  constructor
  · show chunkId h stem c.text = chunkId h stem c'.text
    rw [hc]
  · rw [hc]

/-- Witness for the amended C1 at a concrete hash function, stem and
chunk. -/
theorem chunk_identity_same_text_witness :
    (buildDoc (fun _ => (0 : Int)) "report" "report.pdf"
        { text := "t", header := none, page := none, docId := none } (5 : Int)).chunk_id
      = (buildDoc (fun _ => (0 : Int)) "report" "report.pdf"
        { text := "t", header := none, page := some "Page 1", docId := none } (7 : Int)).chunk_id ∧
    chunkId (fun _ => (0 : Int)) "report" "t" = chunkId (fun _ => (0 : Int)) "report" "t" :=
  chunk_identity_same_text (fun _ => (0 : Int)) "report" "report.pdf" _ _ _ _ rfl

theorem countKey_cons (k : String) (x : StoredDoc V) (xs : List (StoredDoc V)) :
    countKey k (x :: xs) = (if x.chunk_id = k then 1 else 0) + countKey k xs := by
  unfold countKey
  by_cases hx : x.chunk_id = k
  · simp [List.filter_cons, hx, Nat.add_comm]
  · simp [List.filter_cons, hx]

theorem countKey_append (k : String) (s t : List (StoredDoc V)) :
    countKey k (s ++ t) = countKey k s + countKey k t := by
  unfold countKey
  rw [List.filter_append, List.length_append]

theorem replaceOne_countKey_zero (k : String) (d : StoredDoc V) :
    ∀ s : List (StoredDoc V), countKey k s = 0 →
      replaceOne k d s = (s ++ [d], true) := by
  intro s
  induction s with
  | nil => intro h0; rfl
  | cons x xs ih =>
    intro h0
    rw [countKey_cons] at h0
    have hx : ¬ x.chunk_id = k := by
      intro hx
      rw [if_pos hx] at h0
      omega
    rw [if_neg hx] at h0
    rw [replaceOne, if_neg hx]
    simp only [ih (by omega)]
    rfl

theorem replaceOne_countKey_pos (k : String) (d : StoredDoc V)
    (hd : d.chunk_id = k) :
    ∀ s : List (StoredDoc V), 0 < countKey k s →
      (replaceOne k d s).2 = false ∧
      countKey k (replaceOne k d s).1 = countKey k s := by
  intro s
  induction s with
  | nil =>
    intro h0
    simp [countKey] at h0
  | cons x xs ih =>
    intro h0
    by_cases hx : x.chunk_id = k
    · rw [replaceOne, if_pos hx]
      refine ⟨rfl, ?_⟩
      rw [countKey_cons, countKey_cons, if_pos hd, if_pos hx]
    · rw [countKey_cons, if_neg hx] at h0
      have h1 := ih (by omega)
      rw [replaceOne, if_neg hx]
      refine ⟨h1.1, ?_⟩
      rw [countKey_cons, if_neg hx, h1.2, countKey_cons, if_neg hx]

/-- C2: upserting the same chunk and vector twice is idempotent.
Starting from any store holding at most one record for the chunk's
content identity, the second of two identical `upsert_data` calls
performs an update rather than an insert — it reports
`upserted_count = 0` and `modified_count = 1` (the spec's
`inserted_count` and `updated_count`) — and afterwards the store
holds exactly one record for that identity. -/
theorem upsert_twice_idempotent (h : String → Int) (c : Doc) (v : V)
    (stem fname : String) (s : List (StoredDoc V))
    (hs : countKey (chunkId h stem c.text) s ≤ 1) :
    (upsert_data h [c] [v] stem fname
        (upsert_data h [c] [v] stem fname s).1).2.1 = 0 ∧
    (upsert_data h [c] [v] stem fname
        (upsert_data h [c] [v] stem fname s).1).2.2 = 1 ∧
    countKey (chunkId h stem c.text)
        (upsert_data h [c] [v] stem fname
          (upsert_data h [c] [v] stem fname s).1).1 = 1 := by
  have hdk : (buildDoc h stem fname c v).chunk_id = chunkId h stem c.text := rfl
  have hb : ∀ st : List (StoredDoc V), upsert_data h [c] [v] stem fname st
      = ((replaceOne (chunkId h stem c.text) (buildDoc h stem fname c v) st).1,
         (if (replaceOne (chunkId h stem c.text) (buildDoc h stem fname c v) st).2
            then 1 else 0),
         (if (replaceOne (chunkId h stem c.text) (buildDoc h stem fname c v) st).2
            then 0 else 1)) := by
    intro st
    show bulkWrite st [buildDoc h stem fname c v] = _
    simp [bulkWrite, hdk]
  have h1 : countKey (chunkId h stem c.text)
      (upsert_data h [c] [v] stem fname s).1 = 1 := by
    rw [hb s]
    show countKey (chunkId h stem c.text)
      (replaceOne (chunkId h stem c.text) (buildDoc h stem fname c v) s).1 = 1
    rcases Nat.lt_or_ge 0 (countKey (chunkId h stem c.text) s) with hpos | hz
    · rw [(replaceOne_countKey_pos _ _ hdk s hpos).2]
      omega
    · have hz0 : countKey (chunkId h stem c.text) s = 0 := by omega
      rw [replaceOne_countKey_zero _ _ s hz0]
      show countKey (chunkId h stem c.text) (s ++ [buildDoc h stem fname c v]) = 1
      rw [countKey_append, hz0, countKey_cons, if_pos hdk]
      rfl
  have hpos1 : 0 < countKey (chunkId h stem c.text)
      (upsert_data h [c] [v] stem fname s).1 := by omega
  have h2 := replaceOne_countKey_pos (chunkId h stem c.text)
      (buildDoc h stem fname c v) hdk _ hpos1
  rw [hb ((upsert_data h [c] [v] stem fname s).1)]
  refine ⟨?_, ?_, ?_⟩
  · show (if (replaceOne _ _ _).2 then 1 else 0) = 0
    rw [h2.1]
    rfl
  · show (if (replaceOne _ _ _).2 then 0 else 1) = 1
    rw [h2.1]
    rfl
  · show countKey (chunkId h stem c.text) (replaceOne _ _ _).1 = 1
    rw [h2.2]
    exact h1

/-- Witness for C2 at a concrete hash function, chunk, vector and the
empty store. -/
theorem upsert_twice_idempotent_witness :
    countKey (chunkId (fun _ => (0 : Int)) "report" "t")
        ([] : List (StoredDoc Int)) ≤ 1 ∧
    ((upsert_data (fun _ => (0 : Int))
        [{ text := "t", header := none, page := none, docId := none }] [(3 : Int)]
        "report" "report.pdf"
        (upsert_data (fun _ => (0 : Int))
          [{ text := "t", header := none, page := none, docId := none }] [(3 : Int)]
          "report" "report.pdf" []).1).2.1 = 0 ∧
     (upsert_data (fun _ => (0 : Int))
        [{ text := "t", header := none, page := none, docId := none }] [(3 : Int)]
        "report" "report.pdf"
        (upsert_data (fun _ => (0 : Int))
          [{ text := "t", header := none, page := none, docId := none }] [(3 : Int)]
          "report" "report.pdf" []).1).2.2 = 1 ∧
     countKey (chunkId (fun _ => (0 : Int)) "report" "t")
        (upsert_data (fun _ => (0 : Int))
          [{ text := "t", header := none, page := none, docId := none }] [(3 : Int)]
          "report" "report.pdf"
          (upsert_data (fun _ => (0 : Int))
            [{ text := "t", header := none, page := none, docId := none }] [(3 : Int)]
            "report" "report.pdf" []).1).1 = 1) :=
  ⟨by decide,
   upsert_twice_idempotent (fun _ => (0 : Int))
     { text := "t", header := none, page := none, docId := none } (3 : Int)
     "report" "report.pdf" [] (by decide)⟩

theorem bulkWrite_counts (ops : List (StoredDoc V)) : ∀ store : List (StoredDoc V),
    (bulkWrite store ops).2.1 + (bulkWrite store ops).2.2 = ops.length := by
  induction ops with
  | nil => intro store; rfl
  | cons d ds ih =>
    intro store
    cases hins : (replaceOne d.chunk_id d store).2 with
    | false =>
      simp only [bulkWrite, hins, if_neg Bool.false_ne_true]
      have := ih (replaceOne d.chunk_id d store).1
      simp only [List.length_cons]
      omega
    | true =>
      simp only [bulkWrite, hins, if_true]
      have := ih (replaceOne d.chunk_id d store).1
      simp only [List.length_cons]
      omega

/-- C10: when the chunks and vectors sequences differ in length,
`upsert_data` raises no error (its model is a total function) and
writes exactly `min(len(chunks), len(vectors))` records: the `zip`
builds one record per aligned pair, every element of the longer
sequence beyond the shorter is silently dropped, and the write counts
reported (inserts plus updates) sum to that minimum. -/
theorem upsert_length_mismatch_truncates (h : String → Int) (stem fname : String)
    (cs : List Doc) (vs : List V) (store : List (StoredDoc V))
    (_hne : cs.length ≠ vs.length) :
    (buildDocs h stem fname cs vs).length = min cs.length vs.length ∧
    (upsert_data h cs vs stem fname store).2.1
        + (upsert_data h cs vs stem fname store).2.2
      = min cs.length vs.length := by
  have hl : (buildDocs h stem fname cs vs).length = min cs.length vs.length := by
    unfold buildDocs
    rw [List.length_map, List.length_zip]
  refine ⟨hl, ?_⟩
  show (bulkWrite store (buildDocs h stem fname cs vs)).2.1
      + (bulkWrite store (buildDocs h stem fname cs vs)).2.2
    = min cs.length vs.length
  rw [bulkWrite_counts (buildDocs h stem fname cs vs) store]
  exact hl

/-- Witness for C10: one chunk, zero vectors — zero records written,
no error. -/
theorem upsert_length_mismatch_truncates_witness :
    (1 : Nat) ≠ (0 : Nat) ∧
    ((buildDocs (fun _ => (0 : Int)) "report" "report.pdf"
        [{ text := "t", header := none, page := none, docId := none }]
        ([] : List Int)).length = 0 ∧
     (upsert_data (fun _ => (0 : Int))
        [{ text := "t", header := none, page := none, docId := none }]
        ([] : List Int) "report" "report.pdf" ([] : List (StoredDoc Int))).2.1
        + (upsert_data (fun _ => (0 : Int))
          [{ text := "t", header := none, page := none, docId := none }]
          ([] : List Int) "report" "report.pdf" ([] : List (StoredDoc Int))).2.2
      = 0) :=
  ⟨by decide,
   upsert_length_mismatch_truncates (fun _ => (0 : Int)) "report" "report.pdf"
     [{ text := "t", header := none, page := none, docId := none }]
     ([] : List Int) ([] : List (StoredDoc Int)) (by decide)⟩

/-- C7 counterexample: when an index of the configured name already
exists with an incompatible definition (here a different vector
dimension), `create_vector_index` is a silent no-op — it returns with
the index list unchanged and creates nothing — rather than an error:
the function compares names only and has no failure path, so the
claim's "a name collision with an incompatible definition is an
error" is false on the code. -/
theorem index_name_collision_silent_noop :
    create_vector_index "vi" [{ name := "vi", defn := incompatibleDef }]
      = ([{ name := "vi", defn := incompatibleDef }], false) ∧
    incompatibleDef ≠ vectorIndexDef := by
  exact ⟨rfl, by decide⟩

/-- C7 amended: `create_vector_index` checks existing indexes by name
and creates the similarity index only when no index of that name
exists; when an index of the same name exists — with any definition,
compatible or not — the call leaves the index list unchanged and
creates nothing, silently (it never errors and never overwrites). -/
theorem create_vector_index_idempotent (n : String) (ex : List NamedIndex) :
    (n ∈ ex.map (fun i => i.name) → create_vector_index n ex = (ex, false)) ∧
    (n ∉ ex.map (fun i => i.name) →
      create_vector_index n ex
        = (ex ++ [{ name := n, defn := vectorIndexDef }], true)) := by
  constructor
  · intro hmem
    unfold create_vector_index
    rw [if_pos hmem]
  · intro hmem
    unfold create_vector_index
    rw [if_neg hmem]

/-- Witness for the amended C7: a second call with the index already
present changes nothing. -/
theorem create_vector_index_idempotent_witness :
    create_vector_index "vi" [{ name := "vi", defn := vectorIndexDef }]
      = ([{ name := "vi", defn := vectorIndexDef }], false) :=
  (create_vector_index_idempotent "vi"
    [{ name := "vi", defn := vectorIndexDef }]).1 (by decide)

theorem pyShowOpt_getD (o : Option String) : pyShowOpt o = o.getD "None" := by
  cases o <;> rfl

theorem formatLine_citationLine (i : Nat) (r : SearchResult) :
    formatLine i r = citationLine i r := by
  unfold formatLine citationLine
  rw [pyShowOpt_getD, pyShowOpt_getD]

theorem contextLines_enum (rs : List SearchResult) : ∀ i : Nat,
    contextLines (i + 1) rs
      = (rs.enumFrom i).map (fun p => formatLine (p.1 + 1) p.2) := by
  induction rs with
  | nil => intro i; rfl
  | cons r rest ih =>
    intro i
    show formatLine (i + 1) r :: contextLines (i + 1 + 1) rest = _
    have he : (r :: rest).enumFrom i = (i, r) :: rest.enumFrom (i + 1) := rfl
    rw [he, List.map_cons, ih (i + 1)]

/-- C8: for every non-empty result sequence, the retriever's output
equals the claim-side context: each result becomes a citation-tagged
line carrying its 1-based rank, source filename, header title or the
placeholder when absent, page label or the placeholder when absent,
and the chunk text; the output is the ordered concatenation of these
lines separated by double newlines, with exactly one line per
result. -/
theorem search_context_format (rs : List SearchResult) (_hne : rs ≠ []) :
    search_result_for_llm rs = claimContext rs ∧
    (contextLines 1 rs).length = rs.length := by
  have h0 : contextLines 1 rs
      = (rs.enumFrom 0).map (fun p => formatLine (p.1 + 1) p.2) :=
    contextLines_enum rs 0
  constructor
  · unfold search_result_for_llm claimContext
    congr 1
    rw [h0]
    have he : rs.enum = rs.enumFrom 0 := rfl
    rw [he]
    exact List.map_congr_left (fun p _ => formatLine_citationLine (p.1 + 1) p.2)
  · rw [h0, List.length_map, List.enumFrom_length]

/-- Witness for C8 at a concrete singleton result list with an absent
page label. -/
theorem search_context_format_witness :
    search_result_for_llm
        [{ text := "body", source := "a.pdf", header := some "Intro", page := none }]
      = claimContext
        [{ text := "body", source := "a.pdf", header := some "Intro", page := none }] ∧
    (contextLines 1
        [{ text := "body", source := "a.pdf", header := some "Intro", page := none }]).length
      = 1 :=
  search_context_format
    [{ text := "body", source := "a.pdf", header := some "Intro", page := none }]
    (by decide)

/-- C9 counterexample: the claim fails on the code at a concrete
input.  With a previously written record at the destination,
`save_splits_jsonl` — which opens the file with mode `"w"` — leaves
the file holding only the newly serialized records: the previously
written record is removed, so the writer does not append.  Moreover
the call returns the destination path, not the count of records
written. -/
theorem save_splits_truncates :
    (save_splits_jsonl
        [{ text := "new", header := none, page := none, docId := none }]
        "doc_char_splits.jsonl" "output"
        [{ text := "old", header := none, page := none, recId := none }]).1
      = [{ text := "new", header := none, page := none, recId := none }] ∧
    ({ text := "old", header := none, page := none, recId := none } : JsonlRecord) ∉
      (save_splits_jsonl
        [{ text := "new", header := none, page := none, docId := none }]
        "doc_char_splits.jsonl" "output"
        [{ text := "old", header := none, page := none, recId := none }]).1 ∧
    (save_splits_jsonl
        [{ text := "new", header := none, page := none, docId := none }]
        "doc_char_splits.jsonl" "output"
        [{ text := "old", header := none, page := none, recId := none }]).2
      = "output/doc_char_splits.jsonl" := by
  exact ⟨rfl, by decide, rfl⟩

/-- C9 amended: the writer serializes exactly one record per chunk —
each holding the chunk's text and metadata, plus an identity field
only when it is available (truthy) — and makes those records the new
content of the destination file: opening with mode `"w"` replaces any
previously written records instead of appending, the result is
independent of the previous file content, and the call returns the
destination path rather than a count. -/
theorem save_splits_one_record_per_chunk (documents : List Doc) (fn folder : String)
    (prev prev' : List JsonlRecord) :
    (save_splits_jsonl documents fn folder prev).1 = documents.map recordOfDoc ∧
    (save_splits_jsonl documents fn folder prev).1.length = documents.length ∧
    save_splits_jsonl documents fn folder prev
      = save_splits_jsonl documents fn folder prev' ∧
    (save_splits_jsonl documents fn folder prev).2 = folder ++ "/" ++ fn := by
  refine ⟨rfl, ?_, rfl, rfl⟩
  show (documents.map recordOfDoc).length = documents.length
  rw [List.length_map]

end DocRetrieval
